import Mathlib

/-!
Package installer (`internal/initializer/installer.go`).

A shallow embedding of `PackageInstaller.Run`: the two construction loops that
fill the pre-allocated slice `pkgs` through the shared index `pkgsIdx`, and the
apply loop that hands every slot to the patching applicator.

The collaborators of `Run` enter as explicit parameters (`Env`): the reference
parser `name.ParseReference`, the canonical string `name.String()`, the label
function `xpkg.ToDNSLabel` and the applicator `pa.Apply`.  Calls to the parser
and to the applicator are recorded in call order, so that statements about
"which calls happened" are statements about the returned logs.
-/

namespace Initializer

/-! Data model -/

/-- The two record kinds built by `Run`: `v1.Provider` and `v1.Configuration`. -/
inductive Kind where
  | Provider
  | Configuration
  deriving DecidableEq, Repr

/-- A package object as `Run` builds it: its kind, `ObjectMeta.Name` and
`Spec.PackageSpec.Package`; every other field is left at its zero value. -/
structure PackageRecord where
  kind : Kind
  name : String
  package : String
  deriving DecidableEq, Repr

/-- Modelled from the spec: the canonical reference returned by the parser
collaborator (the type `name.Reference` is not part of the source file).  The
spec describes it as a source component (registry + repository) together with
a tag or digest. -/
structure Reference where
  source : String
  identifier : String
  deriving DecidableEq, Repr

/-- Modelled from the spec: `xpkg.ParsePackageSourceFromReference` is not part
of the source file; the spec says it extracts the source component of a
canonical reference (registry + repository, excluding any tag or digest). -/
def ParsePackageSourceFromReference (ref : Reference) : String :=
  ref.source

/-- The value of `errors.Wrap(err, message)` for a non-nil `err`: the
underlying error together with the static message put in front of it. -/
structure WrappedError (ε : Type) where
  cause : ε
  message : String
  deriving DecidableEq, Repr

/-- The function `errors.Wrap` on a non-nil error. -/
def Wrap {ε : Type} (err : ε) (message : String) : WrappedError ε :=
  { cause := err, message := message }

def errParsePackageName : String := "package name is not valid"

def errApplyPackage : String := "cannot apply package"

/-- The collaborators of `Run`.  `σ` is the state of the object store behind
`kube`, `ε` the type of collaborator errors.
* `ParseReference img` is `name.ParseReference(img, name.WithDefaultRegistry(""))`;
* `refString n` is `n.String()`;
* `ToDNSLabel` is `xpkg.ToDNSLabel`;
* `Apply s o` is `pa.Apply(ctx, o)` run against store state `s`: it returns the
  store state after the call and the error of the call (`none` for `nil`).
  The object is optional because a slot of `pkgs` is a nil-able interface. -/
structure Env (σ ε : Type) where
  ParseReference : String → Except ε Reference
  refString : Reference → String
  ToDNSLabel : String → String
  Apply : σ → Option PackageRecord → σ × Option ε

/-- The installer: two lists of raw package references. -/
structure PackageInstaller where
  Configurations : List String
  Providers : List String
  deriving DecidableEq, Repr

/-- The constructor `NewPackageInstaller(p, c)`. -/
def NewPackageInstaller (p : List String) (c : List String) : PackageInstaller :=
  { Providers := p, Configurations := c }

/-! The construction loops -/

/-- The object literal of the first loop: a `v1.Provider` named after the
label of the reference source, with the canonical string as package. -/
def newProvider {σ ε : Type} (env : Env σ ε) (name : Reference) : PackageRecord :=
  { kind := Kind.Provider
    name := env.ToDNSLabel (ParsePackageSourceFromReference name)
    package := env.refString name }

/-- The object literal of the second loop: a `v1.Configuration`. -/
def newConfiguration {σ ε : Type} (env : Env σ ε) (name : Reference) : PackageRecord :=
  { kind := Kind.Configuration
    name := env.ToDNSLabel (ParsePackageSourceFromReference name)
    package := env.refString name }

/-- The local variables shared by the two loops: the slice `pkgs` (a slot is
`none` while it still holds the nil interface) and the index `pkgsIdx`. -/
structure BuildState where
  pkgs : List (Option PackageRecord)
  pkgsIdx : Nat
  deriving DecidableEq, Repr

/-- How a piece of `Run` ends: it falls through to the next statement, it
returns an error to the caller, or the Go runtime panics. -/
inductive Flow (ε α : Type) where
  | next (a : α)
  | returned (err : WrappedError ε)
  | panicked
  deriving Repr

/-- One construction loop, `for _, img := range imgs`.  `mk` is the object
literal of the loop.  The second component of the result is the list of
strings handed to the parser, in call order.  The write `pkgs[pkgsIdx] = p`
panics when the index is not below the length of the slice. -/
def buildLoop {σ ε : Type} (env : Env σ ε) (mk : Reference → PackageRecord) :
    List String → BuildState → Flow ε BuildState × List String
  | [], st => (Flow.next st, [])
  | img :: rest, st =>
    match env.ParseReference img with
    | Except.error err => (Flow.returned (Wrap err errParsePackageName), [img])
    | Except.ok name =>
      if st.pkgsIdx < st.pkgs.length then
        let r := buildLoop env mk rest
          { pkgs := st.pkgs.set st.pkgsIdx (some (mk name)), pkgsIdx := st.pkgsIdx + 1 }
        (r.1, img :: r.2)
      else
        (Flow.panicked, [img])

/-- Lines 54 to 93 of `Run`: allocate `pkgs`, then run the loop over
`Providers` and the loop over `Configurations`. -/
def PackageInstaller.build {σ ε : Type} (pi : PackageInstaller) (env : Env σ ε) :
    Flow ε BuildState × List String :=
  let st0 : BuildState :=
    { pkgs := List.replicate (pi.Providers.length + pi.Configurations.length) none
      pkgsIdx := 0 }
  match buildLoop env (newProvider env) pi.Providers st0 with
  | (Flow.next st1, parsed1) =>
    let r := buildLoop env (newConfiguration env) pi.Configurations st1
    (r.1, parsed1 ++ r.2)
  | (Flow.returned err, parsed1) => (Flow.returned err, parsed1)
  | (Flow.panicked, parsed1) => (Flow.panicked, parsed1)

/-! The apply loop -/

/-- The result of the apply loop: the error it returns (`none` for `nil`), the
objects handed to `Apply` in call order, and the store state it leaves. -/
structure ApplyResult (σ ε : Type) where
  err : Option (WrappedError ε)
  applied : List (Option PackageRecord)
  store : σ

/-- Lines 95 to 100 of `Run`: `for _, p := range pkgs`, stopping at the first
error of `Apply`. -/
def applyLoop {σ ε : Type} (env : Env σ ε) : List (Option PackageRecord) → σ → ApplyResult σ ε
  | [], s => { err := none, applied := [], store := s }
  | p :: rest, s =>
    match env.Apply s p with
    | (s1, some err) => { err := some (Wrap err errApplyPackage), applied := [p], store := s1 }
    | (s1, none) =>
      let r := applyLoop env rest s1
      { err := r.err, applied := p :: r.applied, store := r.store }

/-! Run -/

/-- How `Run` ends: it returns an error value (`none` for `nil`) or panics. -/
inductive Exit (ε : Type) where
  | returned (err : Option (WrappedError ε))
  | panicked
  deriving DecidableEq, Repr

/-- Everything observable about one call of `Run`. -/
structure RunResult (σ ε : Type) where
  exit : Exit ε
  parsed : List String
  applied : List (Option PackageRecord)
  store : σ

/-- The method `Run`, against the store state `kube`. -/
def PackageInstaller.Run {σ ε : Type} (pi : PackageInstaller) (env : Env σ ε) (kube : σ) :
    RunResult σ ε :=
  match pi.build env with
  | (Flow.returned err, parsed) =>
    { exit := Exit.returned (some err), parsed := parsed, applied := [], store := kube }
  | (Flow.panicked, parsed) =>
    { exit := Exit.panicked, parsed := parsed, applied := [], store := kube }
  | (Flow.next st, parsed) =>
    let r := applyLoop env st.pkgs kube
    { exit := Exit.returned r.err, parsed := parsed, applied := r.applied, store := r.store }

/-! The object store of the spec -/

/-- Modelled from the spec: the object store behind the patching applicator is
an external collaborator; the spec describes it as a collection of resources
addressed by kind and name. -/
abbrev Store := List PackageRecord

/-- Two records address the same resource when kind and name agree. -/
def sameKey (a b : PackageRecord) : Bool :=
  decide (a.kind = b.kind) && decide (a.name = b.name)

/-- What a single apply does to the store. -/
inductive StoreOp where
  | create
  | patch
  deriving DecidableEq, Repr

/-- Modelled from the spec: the operation the store performs for a record,
a create when no resource with that kind and name exists, a patch otherwise. -/
def storeOp (s : Store) (r : PackageRecord) : StoreOp :=
  if s.any (sameKey r) then StoreOp.patch else StoreOp.create

/-- The patch of one stored resource by a record: a resource with the key of
the record takes its package, any other resource is left alone. -/
def patchPackage (r o : PackageRecord) : PackageRecord :=
  if sameKey r o then { o with package := r.package } else o

/-- Modelled from the spec: create-if-absent, else patch the package field of
the existing resource to match the record, leaving everything else untouched. -/
def storePut (s : Store) (r : PackageRecord) : Store :=
  if s.any (sameKey r) then s.map (patchPackage r) else s ++ [r]

/-- Modelled from the spec: the convergence apply of the spec as an `Apply`
collaborator.  It never fails on a record; a nil object is rejected without
touching the store. -/
def storeApply (s : Store) : Option PackageRecord → Store × Option String
  | some r => (storePut s r, none)
  | none => (s, some "nil object")

/-- A store whose apply fails, without mutation, on every record named `bad`
and otherwise behaves like `storeApply`. -/
def failingApply (bad : String) (s : Store) : Option PackageRecord → Store × Option String
  | some r => if r.name = bad then (s, some "store unavailable") else storeApply s (some r)
  | none => storeApply s none

/-! A small parser used to instantiate the collaborators on concrete inputs -/

/-- A sample reference parser: it rejects a string containing a blank or an
exclamation mark, reporting the string it was given, and otherwise splits at
the first colon into source and tag. -/
def sampleParse (img : String) : Except String Reference :=
  if img.data.any (fun c => c = ' ' || c = '!') then
    Except.error ("could not parse reference: " ++ img)
  else
    let parts := img.data.span (fun c => c != ':')
    Except.ok { source := String.mk parts.1, identifier := String.mk (parts.2.drop 1) }

/-- A parser that rejects every string with one and the same error. -/
def rejectAll (_img : String) : Except String Reference :=
  Except.error "invalid reference"

/-- The canonical string of a sample reference. -/
def sampleString (n : Reference) : String :=
  n.source ++ ":" ++ n.identifier

/-- Sample collaborators around an apply function. -/
def sampleEnv (apply : Store → Option PackageRecord → Store × Option String) :
    Env Store String :=
  { ParseReference := sampleParse
    refString := sampleString
    ToDNSLabel := fun s => s
    Apply := apply }

/-- Sample collaborators whose parser rejects every string with the same
error. -/
def rejectEnv : Env Store String :=
  { ParseReference := rejectAll
    refString := sampleString
    ToDNSLabel := fun s => s
    Apply := storeApply }

/-! Vocabulary of the statements -/

/-- The desired set of the spec: the provider records followed by the
configuration records, each in input order. -/
def desiredSet {σ ε : Type} (env : Env σ ε) (ns ms : List Reference) : List PackageRecord :=
  ns.map (newProvider env) ++ ms.map (newConfiguration env)

/-- The store after putting the records one after the other. -/
def putAll (s : Store) (rs : List PackageRecord) : Store :=
  rs.foldl storePut s

/-- The patches of the records, one after the other, on one resource. -/
def patchAll (rs : List PackageRecord) (o : PackageRecord) : PackageRecord :=
  rs.foldl (fun o1 r => patchPackage r o1) o

/-- The list of raw references of a kind. -/
def PackageInstaller.refs (pi : PackageInstaller) : Kind → List String
  | Kind.Provider => pi.Providers
  | Kind.Configuration => pi.Configurations

/-- The other kind. -/
def Kind.other : Kind → Kind
  | Kind.Provider => Kind.Configuration
  | Kind.Configuration => Kind.Provider

/-- The record of the spec for a parsed reference: the tuple of kind,
identifier and canonical reference string. -/
def recordOf {σ ε : Type} (env : Env σ ε) (k : Kind) (n : Reference) : PackageRecord :=
  { kind := k
    name := env.ToDNSLabel (ParsePackageSourceFromReference n)
    package := env.refString n }

/-- The store keys, kind and name, held by the slots of a slice. -/
def slotKeys (pkgs : List (Option PackageRecord)) : List (Option (Kind × String)) :=
  pkgs.map (Option.map (fun o => (o.kind, o.name)))

/-- The store state after applying the records one after the other. -/
def storeAfter {σ ε : Type} (env : Env σ ε) (s : σ) (rs : List PackageRecord) : σ :=
  rs.foldl (fun t r => (env.Apply t (some r)).1) s

/-- Every apply of the records, one after the other from state `s`, succeeds. -/
def allSucceed {σ ε : Type} (env : Env σ ε) : σ → List PackageRecord → Bool
  | _, [] => true
  | s, r :: rs => (env.Apply s (some r)).2.isNone && allSucceed env (env.Apply s (some r)).1 rs

/-! Facts about the construction loops -/

theorem map_parse_cons {ε : Type} {f : String → Except ε Reference} {img : String}
    {rest : List String} {ns : List Reference}
    (h : (img :: rest).map f = ns.map Except.ok) :
    ∃ n ms, ns = n :: ms ∧ f img = Except.ok n ∧ rest.map f = ms.map Except.ok := by
  cases ns with
  | nil => simp at h
  | cons n ms =>
    simp only [List.map_cons, List.cons.injEq] at h
    exact ⟨n, ms, rfl, h.1, h.2⟩

theorem map_parse_length {ε : Type} {f : String → Except ε Reference} {imgs : List String}
    {ns : List Reference} (h : imgs.map f = ns.map Except.ok) : ns.length = imgs.length := by
  have := congrArg List.length h
  simpa using this.symm

/-- When every string parses and the slice has room, a construction loop
falls through, having parsed every string and written the records into the
slots from `pkgsIdx` on. -/
theorem buildLoop_ok {σ ε : Type} (env : Env σ ε) (mk : Reference → PackageRecord) :
    ∀ (imgs : List String) (ns : List Reference) (st : BuildState),
      imgs.map env.ParseReference = ns.map Except.ok →
      st.pkgsIdx + imgs.length ≤ st.pkgs.length →
      buildLoop env mk imgs st =
        (Flow.next
          { pkgs := st.pkgs.take st.pkgsIdx ++ ns.map (fun n => some (mk n)) ++
              st.pkgs.drop (st.pkgsIdx + imgs.length)
            pkgsIdx := st.pkgsIdx + imgs.length }, imgs) := by
  intro imgs
  induction imgs with
  | nil =>
    intro ns st h _
    cases ns with
    | nil => simp [buildLoop]
    | cons n ms => simp at h
  | cons img rest ih =>
    intro ns st h hlen
    obtain ⟨n, ms, rfl, hn, hrest⟩ := map_parse_cons h
    simp only [List.length_cons] at hlen
    have hlt : st.pkgsIdx < st.pkgs.length := by omega
    rw [buildLoop, hn]
    simp only [hlt, if_true]
    rw [ih ms _ hrest (by simp only [List.length_set]; omega)]
    simp only [List.length_cons, List.map_cons]
    have h1 : (st.pkgs.set st.pkgsIdx (some (mk n))).take (st.pkgsIdx + 1) =
        st.pkgs.take st.pkgsIdx ++ [some (mk n)] := by
      rw [List.set_eq_take_append_cons_drop, if_pos hlt]
      rw [List.take_append_eq_append_take]
      simp [List.take_take, Nat.min_eq_left (Nat.le_of_lt hlt)]
    have h2 : (st.pkgs.set st.pkgsIdx (some (mk n))).drop (st.pkgsIdx + 1 + rest.length) =
        st.pkgs.drop (st.pkgsIdx + (rest.length + 1)) := by
      rw [List.drop_set_of_lt _ _ (by omega)]
      congr 1
      omega
    rw [h1, h2]
    simp [Nat.add_assoc, Nat.add_comm 1 rest.length]

/-- A construction loop stops at the first string the parser rejects: it
returns the wrapped parser error, and the parser has seen exactly the strings
up to and including the rejected one. -/
theorem buildLoop_fail {σ ε : Type} (env : Env σ ε) (mk : Reference → PackageRecord) :
    ∀ (pre : List String) (ns : List Reference) (r : String) (e : ε) (post : List String)
      (st : BuildState),
      pre.map env.ParseReference = ns.map Except.ok →
      env.ParseReference r = Except.error e →
      st.pkgsIdx + pre.length ≤ st.pkgs.length →
      buildLoop env mk (pre ++ r :: post) st =
        (Flow.returned (Wrap e errParsePackageName), pre ++ [r]) := by
  intro pre
  induction pre with
  | nil =>
    intro ns r e post st _ hr _
    simp [buildLoop, hr]
  | cons img rest ih =>
    intro ns r e post st h hr hlen
    obtain ⟨n, ms, rfl, hn, hrest⟩ := map_parse_cons h
    simp only [List.length_cons] at hlen
    have hlt : st.pkgsIdx < st.pkgs.length := by omega
    rw [List.cons_append, buildLoop, hn]
    simp only [hlt, if_true]
    rw [ih ms r e post _ hrest hr (by simp only [List.length_set]; omega)]
    simp

/-- Every list of strings either parses entirely or splits at a first
rejected string. -/
theorem parse_split {ε : Type} (f : String → Except ε Reference) :
    ∀ imgs : List String,
      (∃ ns : List Reference, imgs.map f = ns.map Except.ok) ∨
      (∃ (pre : List String) (ns : List Reference) (r : String) (e : ε) (post : List String),
        imgs = pre ++ r :: post ∧ pre.map f = ns.map Except.ok ∧
        f r = Except.error e) := by
  intro imgs
  induction imgs with
  | nil => exact Or.inl ⟨[], rfl⟩
  | cons img rest ih =>
    cases hf : f img with
    | error e => exact Or.inr ⟨[], [], img, e, rest, rfl, rfl, hf⟩
    | ok n =>
      rcases ih with ⟨ns, hns⟩ | ⟨pre, ns, r, e, post, hsplit, hpre, hr⟩
      · exact Or.inl ⟨n :: ns, by simp [hf, hns]⟩
      · exact Or.inr ⟨img :: pre, n :: ns, r, e, post, by simp [hsplit], by simp [hf, hpre], hr⟩

theorem map_parse_append {ε : Type} {f : String → Except ε Reference} {xs ys : List String}
    {ns : List Reference} (h : (xs ++ ys).map f = ns.map Except.ok) :
    ∃ n1 n2 : List Reference,
      ns = n1 ++ n2 ∧ xs.map f = n1.map Except.ok ∧ ys.map f = n2.map Except.ok := by
  rw [List.map_append] at h
  obtain ⟨n1, n2, hns, h1, h2⟩ := List.map_eq_append_iff.mp h.symm
  exact ⟨n1, n2, hns, h1.symm, h2.symm⟩

/-- The desired set written by the two loops when every reference parses. -/
theorem build_ok {σ ε : Type} (env : Env σ ε) (pi : PackageInstaller)
    (ns ms : List Reference)
    (hP : pi.Providers.map env.ParseReference = ns.map Except.ok)
    (hC : pi.Configurations.map env.ParseReference = ms.map Except.ok) :
    pi.build env =
      (Flow.next
        { pkgs := (ns.map (newProvider env) ++ ms.map (newConfiguration env)).map some
          pkgsIdx := pi.Providers.length + pi.Configurations.length },
        pi.Providers ++ pi.Configurations) := by
  have hn := map_parse_length hP
  have hm := map_parse_length hC
  unfold PackageInstaller.build
  simp only []
  rw [buildLoop_ok env (newProvider env) pi.Providers ns _ hP (by simp)]
  simp only []
  rw [buildLoop_ok env (newConfiguration env) pi.Configurations ms _ hC (by simp [hn])]
  simp [hn, hm, List.take_append_eq_append_take, List.drop_append_eq_append_drop,
    Function.comp_def]

/-- The two loops stop at the first rejected reference in the order
`Providers` then `Configurations`. -/
theorem build_fail {σ ε : Type} (env : Env σ ε) (pi : PackageInstaller)
    (pre : List String) (ns : List Reference) (r : String) (e : ε) (post : List String)
    (hsplit : pi.Providers ++ pi.Configurations = pre ++ r :: post)
    (hpre : pre.map env.ParseReference = ns.map Except.ok)
    (hr : env.ParseReference r = Except.error e) :
    pi.build env = (Flow.returned (Wrap e errParsePackageName), pre ++ [r]) := by
  unfold PackageInstaller.build
  simp only []
  rcases List.append_eq_append_iff.mp hsplit with ⟨a, ha, hb⟩ | ⟨c, hc, hd⟩
  · -- the rejected reference is a configuration
    rw [ha] at hpre
    obtain ⟨n1, n2, _, h1, h2⟩ := map_parse_append hpre
    have hn := map_parse_length h1
    rw [buildLoop_ok env (newProvider env) pi.Providers n1 _ h1 (by simp)]
    simp only []
    rw [hb, buildLoop_fail env (newConfiguration env) a n2 r e post _ h2 hr
      (by simp [hn, hb])]
    simp [ha]
  · cases c with
    | nil =>
      simp only [List.append_nil, List.nil_append] at hc hd
      have hn := map_parse_length hpre
      rw [hc, buildLoop_ok env (newProvider env) pre ns _ hpre (by simp)]
      simp only []
      have hfail := fun st => buildLoop_fail env (newConfiguration env) [] [] r e post st rfl hr
      simp only [List.nil_append, List.length_nil, Nat.add_zero] at hfail
      rw [← hd, hfail _ (by simp [hn])]
    | cons x c =>
      simp only [List.cons_append, List.cons.injEq] at hd
      obtain ⟨rfl, _⟩ := hd
      rw [hc, buildLoop_fail env (newProvider env) pre ns r e c _ hpre hr
        (by simp only [List.length_replicate, List.length_append, List.length_cons]; omega)]

theorem parse_ok_of_mem {ε : Type} {f : String → Except ε Reference} :
    ∀ {imgs : List String} {ns : List Reference}, imgs.map f = ns.map Except.ok →
      ∀ r ∈ imgs, ∃ n, f r = Except.ok n := by
  intro imgs
  induction imgs with
  | nil => intro ns _ r hr; simp at hr
  | cons img rest ih =>
    intro ns h r hr
    obtain ⟨n, ms, _, hn, hrest⟩ := map_parse_cons h
    rcases List.mem_cons.mp hr with rfl | hmem
    · exact ⟨n, hn⟩
    · exact ih hrest r hmem

/-! Facts about the apply loop -/

theorem storeAfter_append {σ ε : Type} (env : Env σ ε) (s : σ) (xs ys : List PackageRecord) :
    storeAfter env s (xs ++ ys) = storeAfter env (storeAfter env s xs) ys := by
  simp [storeAfter, List.foldl_append]

theorem storeAfter_cons {σ ε : Type} (env : Env σ ε) (s : σ) (x : PackageRecord)
    (xs : List PackageRecord) :
    storeAfter env s (x :: xs) = storeAfter env (env.Apply s (some x)).1 xs := rfl

/-- The apply loop stops at the first record whose apply fails: the records
up to and including it were handed to `Apply`, none after it. -/
theorem applyLoop_fail {σ ε : Type} (env : Env σ ε) :
    ∀ (pre : List PackageRecord) (r : PackageRecord) (post : List PackageRecord) (s : σ) (e : ε),
      allSucceed env s pre = true →
      (env.Apply (storeAfter env s pre) (some r)).2 = some e →
      applyLoop env ((pre ++ r :: post).map some) s =
        { err := some (Wrap e errApplyPackage)
          applied := (pre ++ [r]).map some
          store := (env.Apply (storeAfter env s pre) (some r)).1 } := by
  intro pre
  induction pre with
  | nil =>
    intro r post s e _ hf
    simp only [storeAfter, List.foldl_nil] at hf
    simp only [List.nil_append, List.map_cons, applyLoop, storeAfter, List.foldl_nil,
      List.map_nil]
    cases hA : env.Apply s (some r) with
    | mk s1 o =>
      rw [hA] at hf
      simp only at hf
      subst hf
      rfl
  | cons x xs ih =>
    intro r post s e hok hf
    simp only [allSucceed, Bool.and_eq_true, Option.isNone_iff_eq_none] at hok
    rw [storeAfter_cons] at hf
    have := ih r post (env.Apply s (some x)).1 e hok.2 hf
    simp only [List.cons_append, List.map_cons, applyLoop, storeAfter_cons]
    cases hA : env.Apply s (some x) with
    | mk s1 o =>
      rw [hA] at hok this
      simp only at hok this
      rw [hok.1]
      simp only [List.map_append, List.map_cons, List.map_nil] at this
      simp only [List.append_eq, List.map_append, List.map_cons, List.map_nil, this]

/-- The apply loop hands every record to `Apply`, in order, when every apply
succeeds. -/
theorem applyLoop_ok {σ ε : Type} (env : Env σ ε) :
    ∀ (rs : List PackageRecord) (s : σ), allSucceed env s rs = true →
      applyLoop env (rs.map some) s =
        { err := none, applied := rs.map some, store := storeAfter env s rs } := by
  intro rs
  induction rs with
  | nil => intro s _; rfl
  | cons x xs ih =>
    intro s hok
    simp only [allSucceed, Bool.and_eq_true, Option.isNone_iff_eq_none] at hok
    have := ih (env.Apply s (some x)).1 hok.2
    simp only [List.map_cons, applyLoop, storeAfter_cons]
    cases hA : env.Apply s (some x) with
    | mk s1 o =>
      rw [hA] at hok this
      simp only at hok this
      rw [hok.1]
      simp only [this]

/-- The apply loop hands over an initial segment of the slice. -/
theorem applyLoop_applied_initial {σ ε : Type} (env : Env σ ε) :
    ∀ (ps : List (Option PackageRecord)) (s : σ), (applyLoop env ps s).applied <+: ps := by
  intro ps
  induction ps with
  | nil => intro s; exact List.prefix_refl _
  | cons p rest ih =>
    intro s
    rw [applyLoop]
    cases hA : env.Apply s p with
    | mk s1 o =>
      cases o with
      | some err => exact ⟨rest, rfl⟩
      | none =>
        obtain ⟨t, ht⟩ := ih s1
        exact ⟨t, by simp [ht]⟩

/-! Facts about Run -/

theorem Run_of_build_fail {σ ε : Type} (env : Env σ ε) (pi : PackageInstaller) (kube : σ)
    (pre : List String) (ns : List Reference) (r : String) (e : ε) (post : List String)
    (hsplit : pi.Providers ++ pi.Configurations = pre ++ r :: post)
    (hpre : pre.map env.ParseReference = ns.map Except.ok)
    (hr : env.ParseReference r = Except.error e) :
    pi.Run env kube =
      { exit := Exit.returned (some (Wrap e errParsePackageName))
        parsed := pre ++ [r], applied := [], store := kube } := by
  unfold PackageInstaller.Run
  rw [build_fail env pi pre ns r e post hsplit hpre hr]

theorem Run_of_build_ok {σ ε : Type} (env : Env σ ε) (pi : PackageInstaller) (kube : σ)
    (ns ms : List Reference)
    (hP : pi.Providers.map env.ParseReference = ns.map Except.ok)
    (hC : pi.Configurations.map env.ParseReference = ms.map Except.ok) :
    pi.Run env kube =
      { exit := Exit.returned (applyLoop env ((desiredSet env ns ms).map some) kube).err
        parsed := pi.Providers ++ pi.Configurations
        applied := (applyLoop env ((desiredSet env ns ms).map some) kube).applied
        store := (applyLoop env ((desiredSet env ns ms).map some) kube).store } := by
  unfold PackageInstaller.Run
  rw [build_ok env pi ns ms hP hC]
  rfl

/-! Fail-fast on a rejected reference -/

/-- C1. When at least one raw reference, at any position of either list, is
rejected by the parser, `Run` returns a parser error wrapped with the static
message "package name is not valid", `Apply` is never called and the store is
left as it was, also for the valid entries in front of the rejected one. -/
theorem Run_fail_fast_on_bad_name {σ ε : Type} (env : Env σ ε) (pi : PackageInstaller)
    (kube : σ)
    (h : ∃ r ∈ pi.Providers ++ pi.Configurations, ∃ e, env.ParseReference r = Except.error e) :
    ∃ (r : String) (e : ε), r ∈ pi.Providers ++ pi.Configurations ∧
      env.ParseReference r = Except.error e ∧
      (pi.Run env kube).exit = Exit.returned (some (Wrap e "package name is not valid")) ∧
      (pi.Run env kube).applied = [] ∧
      (pi.Run env kube).store = kube := by
  rcases parse_split env.ParseReference (pi.Providers ++ pi.Configurations) with
    ⟨ns, hns⟩ | ⟨pre, ns, r, e, post, hsplit, hpre, hr⟩
  · obtain ⟨r, hmem, e, he⟩ := h
    obtain ⟨n, hn⟩ := parse_ok_of_mem hns r hmem
    rw [hn] at he
    cases he
  · refine ⟨r, e, ?_, hr, ?_⟩
    · rw [hsplit]; simp
    · rw [Run_of_build_fail env pi kube pre ns r e post hsplit hpre hr]
      exact ⟨rfl, rfl, rfl⟩

theorem Run_fail_fast_on_bad_name_witness :
    (∃ r ∈ (NewPackageInstaller ["ok-ref", "not a valid ref!!"] []).Providers ++
        (NewPackageInstaller ["ok-ref", "not a valid ref!!"] []).Configurations,
      ∃ e, (sampleEnv storeApply).ParseReference r = Except.error e) ∧
    ∃ (r : String) (e : String),
      r ∈ (NewPackageInstaller ["ok-ref", "not a valid ref!!"] []).Providers ++
        (NewPackageInstaller ["ok-ref", "not a valid ref!!"] []).Configurations ∧
      (sampleEnv storeApply).ParseReference r = Except.error e ∧
      ((NewPackageInstaller ["ok-ref", "not a valid ref!!"] []).Run
        (sampleEnv storeApply) []).exit =
          Exit.returned (some (Wrap e "package name is not valid")) ∧
      ((NewPackageInstaller ["ok-ref", "not a valid ref!!"] []).Run
        (sampleEnv storeApply) []).applied = [] ∧
      ((NewPackageInstaller ["ok-ref", "not a valid ref!!"] []).Run
        (sampleEnv storeApply) []).store = [] :=
  have h : ∃ r ∈ (NewPackageInstaller ["ok-ref", "not a valid ref!!"] []).Providers ++
        (NewPackageInstaller ["ok-ref", "not a valid ref!!"] []).Configurations,
      ∃ e, (sampleEnv storeApply).ParseReference r = Except.error e :=
    ⟨"not a valid ref!!", by decide, "could not parse reference: not a valid ref!!", rfl⟩
  ⟨h, Run_fail_fast_on_bad_name (sampleEnv storeApply)
    (NewPackageInstaller ["ok-ref", "not a valid ref!!"] []) [] h⟩

/-- C8. When several raw references are invalid, `Run` returns the wrapped
parser error of the first invalid one in the order `Providers` then
`Configurations`; the parser has been called on the entries up to and
including it and on none after it; a single error is returned.  In particular
an invalid entry of `Providers` wins over whatever `Configurations` holds. -/
theorem Run_first_error_in_list_order {σ ε : Type} (env : Env σ ε) (pi : PackageInstaller)
    (kube : σ) (pre : List String) (ns : List Reference) (r : String) (e : ε)
    (post : List String)
    (hsplit : pi.Providers ++ pi.Configurations = pre ++ r :: post)
    (hpre : pre.map env.ParseReference = ns.map Except.ok)
    (hr : env.ParseReference r = Except.error e) :
    (pi.Run env kube).exit = Exit.returned (some (Wrap e errParsePackageName)) ∧
    (pi.Run env kube).parsed = pre ++ [r] ∧
    (∀ (cs : List String) (post1 : List String),
      pi.Providers = pre ++ r :: post1 →
      ((NewPackageInstaller pi.Providers cs).Run env kube).exit =
        Exit.returned (some (Wrap e errParsePackageName)) ∧
      ((NewPackageInstaller pi.Providers cs).Run env kube).parsed = pre ++ [r]) := by
  rw [Run_of_build_fail env pi kube pre ns r e post hsplit hpre hr]
  refine ⟨rfl, rfl, ?_⟩
  intro cs post1 hprov
  rw [Run_of_build_fail env (NewPackageInstaller pi.Providers cs) kube pre ns r e (post1 ++ cs)
    (by simp [NewPackageInstaller, hprov]) hpre hr]
  exact ⟨rfl, rfl⟩

theorem Run_first_error_in_list_order_witness :
    ((NewPackageInstaller ["ok-ref", "bad one"] ["bad two", "fine"]).Run
        (sampleEnv storeApply) []).exit =
      Exit.returned (some (Wrap "could not parse reference: bad one" errParsePackageName)) ∧
    ((NewPackageInstaller ["ok-ref", "bad one"] ["bad two", "fine"]).Run
        (sampleEnv storeApply) []).parsed = ["ok-ref", "bad one"] :=
  have h := Run_first_error_in_list_order (sampleEnv storeApply)
    (NewPackageInstaller ["ok-ref", "bad one"] ["bad two", "fine"]) []
    ["ok-ref"] [{ source := "ok-ref", identifier := "" }] "bad one"
    "could not parse reference: bad one" ["bad two", "fine"] rfl rfl rfl
  ⟨h.1, h.2.1⟩

/-- C7, as the code has it. The error `Run` returns for the first rejected
entry is the parser error of that entry wrapped with the static message
"package name is not valid" and nothing else: two runs whose first rejected
entries draw the same parser error return the same error value, whatever the
raw strings were. -/
theorem Run_name_error_value {σ ε : Type} (env : Env σ ε) (pi1 pi2 : PackageInstaller)
    (kube1 kube2 : σ) (pre1 pre2 : List String) (ns1 ns2 : List Reference) (r1 r2 : String)
    (e : ε) (post1 post2 : List String)
    (hsplit1 : pi1.Providers ++ pi1.Configurations = pre1 ++ r1 :: post1)
    (hpre1 : pre1.map env.ParseReference = ns1.map Except.ok)
    (hr1 : env.ParseReference r1 = Except.error e)
    (hsplit2 : pi2.Providers ++ pi2.Configurations = pre2 ++ r2 :: post2)
    (hpre2 : pre2.map env.ParseReference = ns2.map Except.ok)
    (hr2 : env.ParseReference r2 = Except.error e) :
    (pi1.Run env kube1).exit =
      Exit.returned (some { cause := e, message := "package name is not valid" }) ∧
    (pi2.Run env kube2).exit = (pi1.Run env kube1).exit := by
  rw [Run_of_build_fail env pi1 kube1 pre1 ns1 r1 e post1 hsplit1 hpre1 hr1,
    Run_of_build_fail env pi2 kube2 pre2 ns2 r2 e post2 hsplit2 hpre2 hr2]
  exact ⟨rfl, rfl⟩

theorem Run_name_error_value_witness :
    ((NewPackageInstaller ["ok-ref", "x y"] []).Run (sampleEnv storeApply) []).exit =
      Exit.returned (some { cause := "could not parse reference: x y"
                            message := "package name is not valid" }) ∧
    ((NewPackageInstaller ["a"] ["b", "x y"]).Run (sampleEnv storeApply) []).exit =
      ((NewPackageInstaller ["ok-ref", "x y"] []).Run (sampleEnv storeApply) []).exit :=
  Run_name_error_value (sampleEnv storeApply) (NewPackageInstaller ["ok-ref", "x y"] [])
    (NewPackageInstaller ["a"] ["b", "x y"]) [] [] ["ok-ref"] ["a", "b"]
    [{ source := "ok-ref", identifier := "" }]
    [{ source := "a", identifier := "" }, { source := "b", identifier := "" }]
    "x y" "x y" "could not parse reference: x y" [] [] rfl rfl rfl rfl rfl rfl

/-- C7, as stated, fails. With a parser that puts nothing of its input into
its error, the rejected strings "x y" and "p q" make `Run` return one and the
same error value: the value holds the parser error and the static message,
and no copy of the raw string. -/
theorem Run_name_error_omits_input :
    "x y" ≠ "p q" ∧
    rejectEnv.ParseReference "x y" = Except.error "invalid reference" ∧
    rejectEnv.ParseReference "p q" = Except.error "invalid reference" ∧
    ((NewPackageInstaller ["x y"] []).Run rejectEnv []).exit =
      Exit.returned (some { cause := "invalid reference", message := "package name is not valid" }) ∧
    ((NewPackageInstaller ["p q"] []).Run rejectEnv []).exit =
      ((NewPackageInstaller ["x y"] []).Run rejectEnv []).exit := by
  refine ⟨by decide, rfl, rfl, by decide, by decide⟩

/-! The desired set and the successful run -/

/-- C4. When every reference parses, the slice handed to the apply phase is
the provider records in input order followed by the configuration records in
input order; the record of a raw reference with parse result `n` has the kind
of its list, the name `ToDNSLabel (ParsePackageSourceFromReference n)` and the
package `n.String()`; the slice has `len(Providers) + len(Configurations)`
slots. -/
theorem Run_desired_set {σ ε : Type} (env : Env σ ε) (pi : PackageInstaller)
    (ns ms : List Reference)
    (hP : pi.Providers.map env.ParseReference = ns.map Except.ok)
    (hC : pi.Configurations.map env.ParseReference = ms.map Except.ok) :
    (pi.build env).1 =
      Flow.next
        { pkgs :=
            (ns.map (fun n =>
                ({ kind := Kind.Provider
                   name := env.ToDNSLabel (ParsePackageSourceFromReference n)
                   package := env.refString n } : PackageRecord)) ++
              ms.map (fun n =>
                ({ kind := Kind.Configuration
                   name := env.ToDNSLabel (ParsePackageSourceFromReference n)
                   package := env.refString n } : PackageRecord))).map some
          pkgsIdx := pi.Providers.length + pi.Configurations.length } ∧
    (ns.map (newProvider env) ++ ms.map (newConfiguration env)).length =
      pi.Providers.length + pi.Configurations.length ∧
    ∀ kube : σ, (pi.Run env kube).applied <+: (desiredSet env ns ms).map some := by
  have hn := map_parse_length hP
  have hm := map_parse_length hC
  refine ⟨?_, by simp [hn, hm], ?_⟩
  · rw [build_ok env pi ns ms hP hC]
    rfl
  · intro kube
    rw [Run_of_build_ok env pi kube ns ms hP hC]
    exact applyLoop_applied_initial env _ kube

theorem Run_desired_set_witness :
    ((NewPackageInstaller ["reg.io/org/prov:v1"] ["reg.io/org/conf:v2", "plain"]).build
        (sampleEnv storeApply)).1 =
      Flow.next
        { pkgs :=
            [some { kind := Kind.Provider, name := "reg.io/org/prov"
                    package := "reg.io/org/prov:v1" },
             some { kind := Kind.Configuration, name := "reg.io/org/conf"
                    package := "reg.io/org/conf:v2" },
             some { kind := Kind.Configuration, name := "plain", package := "plain:" }]
          pkgsIdx := 3 } :=
  (Run_desired_set (sampleEnv storeApply)
    (NewPackageInstaller ["reg.io/org/prov:v1"] ["reg.io/org/conf:v2", "plain"])
    [{ source := "reg.io/org/prov", identifier := "v1" }]
    [{ source := "reg.io/org/conf", identifier := "v2" }, { source := "plain", identifier := "" }]
    rfl rfl).1

/-- C3. When every reference parses and every apply succeeds, `Run` returns
nil after exactly `p + q` apply calls: the first `p` are the provider records
in the order of `Providers`, the last `q` the configuration records in the
order of `Configurations`, so that every provider apply comes before every
configuration apply; with both lists empty there is no apply call and the
store is untouched. -/
theorem Run_count_and_order {σ ε : Type} (env : Env σ ε) (pi : PackageInstaller) (kube : σ)
    (ns ms : List Reference)
    (hP : pi.Providers.map env.ParseReference = ns.map Except.ok)
    (hC : pi.Configurations.map env.ParseReference = ms.map Except.ok)
    (hok : allSucceed env kube (desiredSet env ns ms) = true) :
    (pi.Run env kube).exit = Exit.returned none ∧
    (pi.Run env kube).applied.length = pi.Providers.length + pi.Configurations.length ∧
    (pi.Run env kube).applied.take pi.Providers.length = (ns.map (newProvider env)).map some ∧
    (pi.Run env kube).applied.drop pi.Providers.length =
      (ms.map (newConfiguration env)).map some ∧
    (∀ (i j : Nat) (a b : PackageRecord),
      (pi.Run env kube).applied[i]? = some (some a) →
      (pi.Run env kube).applied[j]? = some (some b) →
      a.kind = Kind.Provider → b.kind = Kind.Configuration → i < j) ∧
    (pi.Run env kube).store = storeAfter env kube (desiredSet env ns ms) ∧
    (pi.Providers = [] → pi.Configurations = [] →
      (pi.Run env kube).applied = [] ∧ (pi.Run env kube).store = kube) := by
  have hn := map_parse_length hP
  have hm := map_parse_length hC
  rw [Run_of_build_ok env pi kube ns ms hP hC, applyLoop_ok env _ kube hok]
  have happ : (desiredSet env ns ms).map some =
      (ns.map (newProvider env)).map some ++ (ms.map (newConfiguration env)).map some := by
    simp [desiredSet]
  have hlen : ((ns.map (newProvider env)).map some).length = pi.Providers.length := by
    simp [hn]
  refine ⟨rfl, by simp [desiredSet, hn, hm], ?_, ?_, ?_, rfl, ?_⟩
  · exact happ ▸ List.take_left' hlen
  · exact happ ▸ List.drop_left' hlen
  · intro i j a b hi hj ha hb
    dsimp only at hi hj
    rw [happ] at hi hj
    by_contra hij
    have hij : j ≤ i := Nat.le_of_not_lt hij
    by_cases hj1 : j < ((ns.map (newProvider env)).map some).length
    · rw [List.getElem?_append_left hj1] at hj
      have hmem := List.getElem?_mem hj
      simp only [List.mem_map, Option.some.injEq, exists_eq_right] at hmem
      obtain ⟨n, _, rfl⟩ := hmem
      simp [newProvider] at hb
    · have hi1 : ((ns.map (newProvider env)).map some).length ≤ i := by omega
      rw [List.getElem?_append_right hi1] at hi
      have hmem := List.getElem?_mem hi
      simp only [List.mem_map, Option.some.injEq, exists_eq_right] at hmem
      obtain ⟨n, _, rfl⟩ := hmem
      simp [newConfiguration] at ha
  · intro h1 h2
    rw [h1] at hn
    rw [h2] at hm
    have hns : ns = [] := List.eq_nil_of_length_eq_zero hn
    have hms : ms = [] := List.eq_nil_of_length_eq_zero hm
    subst hns hms
    exact ⟨rfl, rfl⟩

theorem Run_count_and_order_witness :
    ((NewPackageInstaller ["p1:v1", "p2"] ["c1"]).Run (sampleEnv storeApply) []).exit =
      Exit.returned none ∧
    ((NewPackageInstaller ["p1:v1", "p2"] ["c1"]).Run (sampleEnv storeApply) []).applied =
      [some { kind := Kind.Provider, name := "p1", package := "p1:v1" },
       some { kind := Kind.Provider, name := "p2", package := "p2:" },
       some { kind := Kind.Configuration, name := "c1", package := "c1:" }] ∧
    ((NewPackageInstaller [] []).Run (sampleEnv storeApply) []).applied = [] :=
  have h := Run_count_and_order (sampleEnv storeApply)
    (NewPackageInstaller ["p1:v1", "p2"] ["c1"]) []
    [{ source := "p1", identifier := "v1" }, { source := "p2", identifier := "" }]
    [{ source := "c1", identifier := "" }] rfl rfl (by decide)
  ⟨h.1, by decide, by decide⟩

/-! Fail-fast on an apply error -/

/-- C2. When every reference parses and the first failing apply is the one of
the `k`-th record of the desired set (`k` the length of `pre`), `Run` returns
that store error wrapped with the static message "cannot apply package";
exactly the records `0..k` were handed to `Apply`, in order, and none after
the `k`-th; the store is left as the failing call left it, on top of the
applies of the records in front, which are not undone. -/
theorem Run_fail_fast_on_apply_error {σ ε : Type} (env : Env σ ε) (pi : PackageInstaller)
    (kube : σ) (ns ms : List Reference) (pre : List PackageRecord) (r : PackageRecord)
    (post : List PackageRecord) (e : ε)
    (hP : pi.Providers.map env.ParseReference = ns.map Except.ok)
    (hC : pi.Configurations.map env.ParseReference = ms.map Except.ok)
    (hsplit : desiredSet env ns ms = pre ++ r :: post)
    (hpre : allSucceed env kube pre = true)
    (hfail : (env.Apply (storeAfter env kube pre) (some r)).2 = some e) :
    (pi.Run env kube).exit = Exit.returned (some (Wrap e "cannot apply package")) ∧
    (pi.Run env kube).applied = (pre ++ [r]).map some ∧
    (pi.Run env kube).applied.length = pre.length + 1 ∧
    (pi.Run env kube).store = (env.Apply (storeAfter env kube pre) (some r)).1 := by
  rw [Run_of_build_ok env pi kube ns ms hP hC, hsplit,
    applyLoop_fail env pre r post kube e hpre hfail]
  exact ⟨rfl, rfl, by simp, rfl⟩

theorem Run_fail_fast_on_apply_error_witness :
    ((NewPackageInstaller ["a", "b"] []).Run (sampleEnv (failingApply "b")) []).exit =
      Exit.returned (some (Wrap "store unavailable" "cannot apply package")) ∧
    ((NewPackageInstaller ["a", "b"] []).Run (sampleEnv (failingApply "b")) []).applied =
      [some { kind := Kind.Provider, name := "a", package := "a:" },
       some { kind := Kind.Provider, name := "b", package := "b:" }] ∧
    ((NewPackageInstaller ["a", "b"] []).Run (sampleEnv (failingApply "b")) []).store =
      [{ kind := Kind.Provider, name := "a", package := "a:" }] :=
  have h := Run_fail_fast_on_apply_error (sampleEnv (failingApply "b"))
    (NewPackageInstaller ["a", "b"] []) []
    [{ source := "a", identifier := "" }, { source := "b", identifier := "" }] []
    [{ kind := Kind.Provider, name := "a", package := "a:" }]
    { kind := Kind.Provider, name := "b", package := "b:" } [] "store unavailable"
    rfl rfl (by decide) (by decide) (by decide)
  ⟨h.1, h.2.1, h.2.2.2⟩

/-! Index safety -/

/-- C10. For all lists, no write `pkgs[pkgsIdx] = ...` is out of range (the
construction loops and `Run` never panic); when the apply phase is reached,
`pkgsIdx` equals `len(Providers) + len(Configurations)`, which is the length
of `pkgs`, every slot holds a constructed record, and `Apply` is never called
on a nil entry. -/
theorem Run_index_safe {σ ε : Type} (env : Env σ ε) (pi : PackageInstaller) (kube : σ) :
    (pi.build env).1 ≠ Flow.panicked ∧
    (∀ st : BuildState, (pi.build env).1 = Flow.next st →
      st.pkgsIdx = pi.Providers.length + pi.Configurations.length ∧
      st.pkgs.length = pi.Providers.length + pi.Configurations.length ∧
      ∀ o ∈ st.pkgs, o ≠ none) ∧
    (pi.Run env kube).exit ≠ Exit.panicked ∧
    ∀ o ∈ (pi.Run env kube).applied, o ≠ none := by
  rcases parse_split env.ParseReference (pi.Providers ++ pi.Configurations) with
    ⟨ns, hns⟩ | ⟨pre, ns, r, e, post, hsplit, hpre, hr⟩
  · obtain ⟨n1, n2, _, hP, hC⟩ := map_parse_append hns
    have hn := map_parse_length hP
    have hm := map_parse_length hC
    have hslots : ∀ o ∈ (desiredSet env n1 n2).map some, o ≠ none := by
      intro o ho
      simp only [List.mem_map] at ho
      obtain ⟨x, _, rfl⟩ := ho
      simp
    rw [Run_of_build_ok env pi kube n1 n2 hP hC, build_ok env pi n1 n2 hP hC]
    refine ⟨by simp, ?_, by simp, ?_⟩
    · intro st hst
      simp only [Flow.next.injEq] at hst
      subst hst
      exact ⟨rfl, by simp [hn, hm], hslots⟩
    · intro o ho
      exact hslots o ((applyLoop_applied_initial env _ kube).subset ho)
  · rw [Run_of_build_fail env pi kube pre ns r e post hsplit hpre hr,
      build_fail env pi pre ns r e post hsplit hpre hr]
    refine ⟨by simp, ?_, by simp, by simp⟩
    intro st hst
    simp at hst

/-! Facts about the store of the spec -/

theorem sameKey_iff (a b : PackageRecord) :
    sameKey a b = true ↔ a.kind = b.kind ∧ a.name = b.name := by
  simp [sameKey]

theorem sameKey_refl (a : PackageRecord) : sameKey a a = true := by
  simp [sameKey]

theorem sameKey_comm (a b : PackageRecord) : sameKey a b = sameKey b a := by
  rw [Bool.eq_iff_iff, sameKey_iff, sameKey_iff]
  exact ⟨fun h => ⟨h.1.symm, h.2.symm⟩, fun h => ⟨h.1.symm, h.2.symm⟩⟩

theorem sameKey_trans {a b c : PackageRecord} (h1 : sameKey a b = true)
    (h2 : sameKey b c = true) : sameKey a c = true := by
  rw [sameKey_iff] at *
  exact ⟨h1.1.trans h2.1, h1.2.trans h2.2⟩

theorem patchPackage_kind (r o : PackageRecord) : (patchPackage r o).kind = o.kind := by
  unfold patchPackage; split <;> rfl

theorem patchPackage_name (r o : PackageRecord) : (patchPackage r o).name = o.name := by
  unfold patchPackage; split <;> rfl

theorem sameKey_patchPackage (x r o : PackageRecord) :
    sameKey x (patchPackage r o) = sameKey x o := by
  simp [sameKey, patchPackage_kind, patchPackage_name]

theorem patchPackage_of_sameKey {r o : PackageRecord} (h : sameKey r o = true) :
    patchPackage r o = { o with package := r.package } := by
  simp [patchPackage, h]

theorem patchPackage_of_not_sameKey {r o : PackageRecord} (h : sameKey r o = false) :
    patchPackage r o = o := by
  simp [patchPackage, h]

/-- A patch with a record whose package the resource already has changes
nothing. -/
theorem patchPackage_noop {r o : PackageRecord}
    (h : sameKey r o = true → o.package = r.package) : patchPackage r o = o := by
  unfold patchPackage
  split
  · next hk => rw [← h hk]
  · rfl

/-- The store never loses a key. -/
theorem any_sameKey_storePut (s : Store) (x r : PackageRecord)
    (h : s.any (sameKey r) = true ∨ sameKey r x = true) :
    (storePut s x).any (sameKey r) = true := by
  unfold storePut
  split
  · next hx =>
    rcases h with h | h
    · simp only [List.any_eq_true, List.mem_map] at h ⊢
      obtain ⟨o, ho, hk⟩ := h
      exact ⟨patchPackage x o, ⟨o, ho, rfl⟩, by rw [sameKey_patchPackage]; exact hk⟩
    · simp only [List.any_eq_true, List.mem_map] at hx ⊢
      obtain ⟨o, ho, hk⟩ := hx
      refine ⟨patchPackage x o, ⟨o, ho, rfl⟩, ?_⟩
      rw [sameKey_patchPackage]
      exact sameKey_trans h hk
  · rcases h with h | h
    · simp [h]
    · simp [h]

/-- After a put every resource with the key of the record has its package. -/
theorem storePut_package (s : Store) (r : PackageRecord) :
    ∀ o ∈ storePut s r, sameKey r o = true → o.package = r.package := by
  intro o ho hk
  unfold storePut at ho
  split at ho
  · simp only [List.mem_map] at ho
    obtain ⟨o1, _, rfl⟩ := ho
    rw [sameKey_patchPackage] at hk
    rw [patchPackage_of_sameKey hk]
  · next hx =>
    rcases List.mem_append.mp ho with h | h
    · exfalso
      apply hx
      exact List.any_eq_true.mpr ⟨o, h, hk⟩
    · simp only [List.mem_singleton] at h
      rw [h]

/-- A put of a record whose key is present, with the package every resource of
that key already has, leaves the store as it is. -/
theorem storePut_noop (s : Store) (r : PackageRecord)
    (hkey : s.any (sameKey r) = true)
    (hpkg : ∀ o ∈ s, sameKey r o = true → o.package = r.package) :
    storePut s r = s := by
  unfold storePut
  rw [if_pos hkey]
  conv => rhs; rw [← List.map_id s]
  apply List.map_congr_left
  intro o ho
  exact patchPackage_noop (hpkg o ho)

theorem record_eq {a b : PackageRecord} (h1 : a.kind = b.kind) (h2 : a.name = b.name)
    (h3 : a.package = b.package) : a = b := by
  cases a; cases b; simp_all

theorem putAll_append (s : Store) (xs ys : List PackageRecord) :
    putAll s (xs ++ ys) = putAll (putAll s xs) ys := by
  simp [putAll, List.foldl_append]

theorem patchAll_append (xs ys : List PackageRecord) (o : PackageRecord) :
    patchAll (xs ++ ys) o = patchAll ys (patchAll xs o) := by
  simp [patchAll, List.foldl_append]

theorem patchAll_kind : ∀ (rs : List PackageRecord) (o : PackageRecord),
    (patchAll rs o).kind = o.kind := by
  intro rs
  induction rs with
  | nil => intro o; rfl
  | cons r rs ih =>
    intro o
    show (patchAll rs (patchPackage r o)).kind = o.kind
    rw [ih, patchPackage_kind]

theorem patchAll_name : ∀ (rs : List PackageRecord) (o : PackageRecord),
    (patchAll rs o).name = o.name := by
  intro rs
  induction rs with
  | nil => intro o; rfl
  | cons r rs ih =>
    intro o
    show (patchAll rs (patchPackage r o)).name = o.name
    rw [ih, patchPackage_name]

theorem sameKey_patchAll (x : PackageRecord) (rs : List PackageRecord) (o : PackageRecord) :
    sameKey x (patchAll rs o) = sameKey x o := by
  simp [sameKey, patchAll_kind, patchAll_name]

theorem patchAll_of_no_key : ∀ (rs : List PackageRecord) (o : PackageRecord),
    (∀ x ∈ rs, sameKey x o = false) → patchAll rs o = o := by
  intro rs
  induction rs with
  | nil => intro o _; rfl
  | cons r rs ih =>
    intro o h
    show patchAll rs (patchPackage r o) = o
    rw [patchPackage_of_not_sameKey (h r (List.mem_cons_self _ _))]
    exact ih o (fun x hx => h x (List.mem_cons_of_mem _ hx))

/-- Every key that was in the store or among the records is in the store
after the puts. -/
theorem any_sameKey_putAll (r : PackageRecord) :
    ∀ (rs : List PackageRecord) (s : Store),
      (s.any (sameKey r) = true ∨ ∃ x ∈ rs, sameKey r x = true) →
      (putAll s rs).any (sameKey r) = true := by
  intro rs
  induction rs with
  | nil =>
    intro s h
    rcases h with h | ⟨x, hx, _⟩
    · exact h
    · simp at hx
  | cons y ys ih =>
    intro s h
    show (putAll (storePut s y) ys).any (sameKey r) = true
    apply ih
    rcases h with h | ⟨x, hx, hk⟩
    · exact Or.inl (any_sameKey_storePut s y r (Or.inl h))
    · rcases List.mem_cons.mp hx with rfl | hmem
      · exact Or.inl (any_sameKey_storePut s x r (Or.inr hk))
      · exact Or.inr ⟨x, hmem, hk⟩

/-- When every key of the records is present, the puts are patches. -/
theorem putAll_present : ∀ (rs : List PackageRecord) (s : Store),
    (∀ r ∈ rs, s.any (sameKey r) = true) → putAll s rs = s.map (patchAll rs) := by
  intro rs
  induction rs with
  | nil =>
    intro s _
    have hid : patchAll [] = id := rfl
    rw [hid, List.map_id]
    rfl
  | cons r rs ih =>
    intro s h
    have hr : s.any (sameKey r) = true := h r (List.mem_cons_self _ _)
    show putAll (storePut s r) rs = s.map (patchAll (r :: rs))
    have hput : storePut s r = s.map (patchPackage r) := by simp [storePut, hr]
    rw [hput, ih]
    · rw [List.map_map]
      rfl
    · intro x hx
      have := h x (List.mem_cons_of_mem _ hx)
      simp only [List.any_eq_true, List.mem_map] at this ⊢
      obtain ⟨o, ho, hk⟩ := this
      exact ⟨patchPackage r o, ⟨o, ho, rfl⟩, by rw [sameKey_patchPackage]; exact hk⟩

/-- A resource of the store after the puts is what the patches of the same
records make of it. -/
theorem patchAll_fixed (s : Store) : ∀ (rs : List PackageRecord),
    ∀ o ∈ putAll s rs, patchAll rs o = o := by
  intro rs
  induction rs using List.reverseRecOn with
  | nil => intro o _; rfl
  | append_singleton ds r ih =>
    intro o ho
    rw [patchAll_append]
    show patchPackage r (patchAll ds o) = o
    rw [putAll_append] at ho
    change o ∈ storePut (putAll s ds) r at ho
    unfold storePut at ho
    split at ho
    · simp only [List.mem_map] at ho
      obtain ⟨o1, ho1, rfl⟩ := ho
      cases hk : sameKey r o1 with
      | true =>
        have hk2 : sameKey r (patchAll ds (patchPackage r o1)) = true := by
          rw [sameKey_patchAll, sameKey_patchPackage]; exact hk
        rw [patchPackage_of_sameKey hk2, patchPackage_of_sameKey hk]
        exact record_eq (by simp [patchAll_kind]) (by simp [patchAll_name]) rfl
      | false =>
        rw [patchPackage_of_not_sameKey hk, ih o1 ho1, patchPackage_of_not_sameKey hk]
    · next hx =>
      rcases List.mem_append.mp ho with h | h
      · rw [ih o h]
        apply patchPackage_of_not_sameKey
        cases hk : sameKey r o with
        | false => rfl
        | true => exact absurd (List.any_eq_true.mpr ⟨o, h, hk⟩) hx
      · simp only [List.mem_singleton] at h
        subst h
        rw [patchAll_of_no_key]
        · exact patchPackage_noop (fun _ => rfl)
        · intro x hxmem
          cases hk : sameKey x o with
          | false => rfl
          | true =>
            exfalso
            apply hx
            apply any_sameKey_putAll
            exact Or.inr ⟨x, hxmem, by rw [sameKey_comm]; exact hk⟩

/-- Putting the same records a second time changes nothing. -/
theorem putAll_idem (s : Store) (rs : List PackageRecord) :
    putAll (putAll s rs) rs = putAll s rs := by
  rw [putAll_present rs (putAll s rs)]
  · conv => rhs; rw [← List.map_id (putAll s rs)]
    apply List.map_congr_left
    intro o ho
    exact patchAll_fixed s rs o ho
  · intro r hr
    exact any_sameKey_putAll r rs s (Or.inr ⟨r, hr, sameKey_refl r⟩)

/-- A put keeps the package of a key when the record put either has another
key or carries that package. -/
theorem storePut_keeps (r x : PackageRecord) (s : Store)
    (hx : sameKey x r = true → x.package = r.package)
    (hs : ∀ o ∈ s, sameKey r o = true → o.package = r.package) :
    ∀ o ∈ storePut s x, sameKey r o = true → o.package = r.package := by
  intro o ho hk
  unfold storePut at ho
  split at ho
  · simp only [List.mem_map] at ho
    obtain ⟨o1, ho1, rfl⟩ := ho
    rw [sameKey_patchPackage] at hk
    cases hk1 : sameKey x o1 with
    | true =>
      rw [patchPackage_of_sameKey hk1]
      apply hx
      exact sameKey_trans hk1 (by rw [sameKey_comm]; exact hk)
    | false =>
      rw [patchPackage_of_not_sameKey hk1]
      exact hs o1 ho1 hk
  · rcases List.mem_append.mp ho with h | h
    · exact hs o h hk
    · simp only [List.mem_singleton] at h
      subst h
      exact hx (by rw [sameKey_comm]; exact hk)

theorem putAll_keeps (r : PackageRecord) : ∀ (xs : List PackageRecord) (s : Store),
    (∀ x ∈ xs, sameKey x r = true → x.package = r.package) →
    (∀ o ∈ s, sameKey r o = true → o.package = r.package) →
    ∀ o ∈ putAll s xs, sameKey r o = true → o.package = r.package := by
  intro xs
  induction xs with
  | nil => intro s _ hs; exact hs
  | cons x xs ih =>
    intro s hxs hs
    show ∀ o ∈ putAll (storePut s x) xs, sameKey r o = true → o.package = r.package
    apply ih
    · exact fun y hy => hxs y (List.mem_cons_of_mem _ hy)
    · exact storePut_keeps r x s (hxs x (List.mem_cons_self _ _)) hs

/-- With the store of the spec as applicator, the store after the applies is
the store after the puts, and no apply of a record fails. -/
theorem storeAfter_eq_putAll (env : Env Store String) (hA : env.Apply = storeApply) :
    ∀ (rs : List PackageRecord) (s : Store), storeAfter env s rs = putAll s rs := by
  intro rs
  induction rs with
  | nil => intro s; rfl
  | cons r rs ih =>
    intro s
    rw [storeAfter_cons, ih, hA]
    rfl

theorem allSucceed_storeApply (env : Env Store String) (hA : env.Apply = storeApply) :
    ∀ (rs : List PackageRecord) (s : Store), allSucceed env s rs = true := by
  intro rs
  induction rs with
  | nil => intro s; rfl
  | cons r rs ih =>
    intro s
    simp only [allSucceed, Bool.and_eq_true]
    refine ⟨?_, ih _⟩
    rw [hA]
    rfl

/-- The second of two applies of one record is a patch, and a patch that
changes nothing when no record applied in between has the same key with
another package. -/
theorem second_apply_is_patch (env : Env Store String) (hA : env.Apply = storeApply)
    (kube : Store) (pre mid : List PackageRecord) (r : PackageRecord) :
    storeOp (storeAfter env kube (pre ++ r :: mid)) r = StoreOp.patch ∧
    ((∀ x ∈ mid, sameKey x r = true → x.package = r.package) →
      env.Apply (storeAfter env kube (pre ++ r :: mid)) (some r) =
        (storeAfter env kube (pre ++ r :: mid), none)) := by
  rw [storeAfter_eq_putAll env hA]
  have hkey : (putAll kube (pre ++ r :: mid)).any (sameKey r) = true :=
    any_sameKey_putAll r _ kube (Or.inr ⟨r, by simp, sameKey_refl r⟩)
  refine ⟨by simp [storeOp, hkey], ?_⟩
  intro hmid
  rw [hA]
  show (storePut (putAll kube (pre ++ r :: mid)) r, none) = _
  rw [storePut_noop _ r hkey]
  have hsplit : pre ++ r :: mid = (pre ++ [r]) ++ mid := by simp
  rw [hsplit, putAll_append, putAll_append]
  exact putAll_keeps r mid _ hmid (storePut_package _ r)

/-! Idempotence and duplicates -/

/-- C5. Against the create-or-patch store keyed by kind and name, applying a
record twice from the empty store is a create followed by a patch that
changes nothing, with the end state of a single apply; and for all lists
whose references parse, a second `Run` right after the first succeeds and
leaves the store in the state the first `Run` left it in. -/
theorem Run_twice_same_store (env : Env Store String) (hA : env.Apply = storeApply)
    (pi : PackageInstaller) (kube : Store) (ns ms : List Reference)
    (hP : pi.Providers.map env.ParseReference = ns.map Except.ok)
    (hC : pi.Configurations.map env.ParseReference = ms.map Except.ok) :
    (∀ r : PackageRecord,
      storeOp [] r = StoreOp.create ∧
      env.Apply [] (some r) = ([r], none) ∧
      storeOp (env.Apply [] (some r)).1 r = StoreOp.patch ∧
      env.Apply (env.Apply [] (some r)).1 (some r) = ((env.Apply [] (some r)).1, none)) ∧
    (pi.Run env kube).exit = Exit.returned none ∧
    (pi.Run env (pi.Run env kube).store).exit = Exit.returned none ∧
    (pi.Run env (pi.Run env kube).store).store = (pi.Run env kube).store := by
  refine ⟨?_, ?_⟩
  · intro r
    rw [hA]
    refine ⟨rfl, rfl, ?_, ?_⟩
    · simp [storeApply, storePut, storeOp, sameKey_refl]
    · simp [storeApply, storePut, sameKey_refl, patchPackage]
  · have hrun : ∀ s : Store, pi.Run env s =
        { exit := Exit.returned none
          parsed := pi.Providers ++ pi.Configurations
          applied := (desiredSet env ns ms).map some
          store := putAll s (desiredSet env ns ms) } := by
      intro s
      rw [Run_of_build_ok env pi s ns ms hP hC,
        applyLoop_ok env _ s (allSucceed_storeApply env hA _ s), storeAfter_eq_putAll env hA]
    rw [hrun kube, hrun]
    exact ⟨rfl, rfl, putAll_idem kube _⟩

theorem Run_twice_same_store_witness :
    ((NewPackageInstaller ["a:v1", "a:v2"] ["c"]).Run (sampleEnv storeApply) []).store =
      [{ kind := Kind.Provider, name := "a", package := "a:v2" },
       { kind := Kind.Configuration, name := "c", package := "c:" }] ∧
    ((NewPackageInstaller ["a:v1", "a:v2"] ["c"]).Run (sampleEnv storeApply)
        ((NewPackageInstaller ["a:v1", "a:v2"] ["c"]).Run (sampleEnv storeApply) []).store).store =
      ((NewPackageInstaller ["a:v1", "a:v2"] ["c"]).Run (sampleEnv storeApply) []).store :=
  ⟨by decide,
   (Run_twice_same_store (sampleEnv storeApply) rfl (NewPackageInstaller ["a:v1", "a:v2"] ["c"])
      [] [{ source := "a", identifier := "v1" }, { source := "a", identifier := "v2" }]
      [{ source := "c", identifier := "" }] rfl rfl).2.2.2⟩

/-- C6, as the code has it. A raw reference that parses and stands twice in
one list makes `Run` hand the same record, hence the same key of kind and
name, to `Apply` twice; against the create-or-patch store the second apply is
a patch, and one that changes nothing when no reference between the two has
the same name with another package; `Run` reports no error.  A reference that
stands once in `Providers` and once in `Configurations` also makes `Run` hand
two records to `Apply` without reporting an error, but the two records differ
in kind, so their keys differ. -/
theorem Run_duplicate_references (env : Env Store String) (hA : env.Apply = storeApply)
    (kube : Store) (r : String) (n : Reference)
    (hr : env.ParseReference r = Except.ok n) :
    (∀ (pi : PackageInstaller) (k : Kind) (a b c : List String)
        (na nb nc other : List Reference),
      pi.refs k = a ++ r :: b ++ r :: c →
      a.map env.ParseReference = na.map Except.ok →
      b.map env.ParseReference = nb.map Except.ok →
      c.map env.ParseReference = nc.map Except.ok →
      (pi.refs k.other).map env.ParseReference = other.map Except.ok →
      ∃ pre post : List PackageRecord,
        (pi.Run env kube).exit = Exit.returned none ∧
        (pi.Run env kube).applied =
          (pre ++ recordOf env k n :: nb.map (recordOf env k) ++
            recordOf env k n :: post).map some ∧
        pre.length = (if k = Kind.Provider then 0 else pi.Providers.length) + a.length ∧
        storeOp (storeAfter env kube (pre ++ recordOf env k n :: nb.map (recordOf env k)))
          (recordOf env k n) = StoreOp.patch ∧
        ((∀ x ∈ nb, env.ToDNSLabel (ParsePackageSourceFromReference x) =
            env.ToDNSLabel (ParsePackageSourceFromReference n) →
            env.refString x = env.refString n) →
          env.Apply (storeAfter env kube (pre ++ recordOf env k n :: nb.map (recordOf env k)))
              (some (recordOf env k n)) =
            (storeAfter env kube (pre ++ recordOf env k n :: nb.map (recordOf env k)),
              none))) ∧
    (∀ (pi : PackageInstaller) (a1 c1 a2 c2 : List String)
        (na1 nc1 na2 nc2 : List Reference),
      pi.Providers = a1 ++ r :: c1 →
      pi.Configurations = a2 ++ r :: c2 →
      a1.map env.ParseReference = na1.map Except.ok →
      c1.map env.ParseReference = nc1.map Except.ok →
      a2.map env.ParseReference = na2.map Except.ok →
      c2.map env.ParseReference = nc2.map Except.ok →
      (pi.Run env kube).exit = Exit.returned none ∧
      (pi.Run env kube).applied =
        (na1.map (recordOf env Kind.Provider) ++ recordOf env Kind.Provider n ::
          (nc1.map (recordOf env Kind.Provider) ++ na2.map (recordOf env Kind.Configuration)) ++
          recordOf env Kind.Configuration n ::
            nc2.map (recordOf env Kind.Configuration)).map some ∧
      sameKey (recordOf env Kind.Provider n) (recordOf env Kind.Configuration n) = false) := by
  have hrun : ∀ (pi : PackageInstaller) (ns ms : List Reference),
      pi.Providers.map env.ParseReference = ns.map Except.ok →
      pi.Configurations.map env.ParseReference = ms.map Except.ok →
      pi.Run env kube =
        { exit := Exit.returned none
          parsed := pi.Providers ++ pi.Configurations
          applied := (desiredSet env ns ms).map some
          store := putAll kube (desiredSet env ns ms) } := by
    intro pi ns ms hP hC
    rw [Run_of_build_ok env pi kube ns ms hP hC,
      applyLoop_ok env _ kube (allSucceed_storeApply env hA _ kube), storeAfter_eq_putAll env hA]
  refine ⟨?_, ?_⟩
  · intro pi k a b c na nb nc other hdup ha hb hc hother
    have hlist : (a ++ r :: b ++ r :: c).map env.ParseReference =
        (na ++ n :: nb ++ n :: nc).map Except.ok := by
      simp [ha, hr, hb, hc]
    have hcore := fun pre => second_apply_is_patch env hA kube pre (nb.map (recordOf env k))
      (recordOf env k n)
    have hmid : (∀ x ∈ nb, env.ToDNSLabel (ParsePackageSourceFromReference x) =
        env.ToDNSLabel (ParsePackageSourceFromReference n) →
          env.refString x = env.refString n) →
        ∀ x ∈ nb.map (recordOf env k), sameKey x (recordOf env k n) = true →
          x.package = (recordOf env k n).package := by
      intro h x hx hk
      simp only [List.mem_map] at hx
      obtain ⟨y, hy, rfl⟩ := hx
      rw [sameKey_iff] at hk
      exact h y hy hk.2
    have hna := map_parse_length ha
    cases k with
    | Provider =>
      have hP : pi.Providers.map env.ParseReference =
          (na ++ n :: nb ++ n :: nc).map Except.ok := by
        have : pi.Providers = a ++ r :: b ++ r :: c := hdup
        rw [this, hlist]
      have hC : pi.Configurations.map env.ParseReference = other.map Except.ok := hother
      refine ⟨na.map (recordOf env Kind.Provider),
        nc.map (recordOf env Kind.Provider) ++ other.map (newConfiguration env), ?_⟩
      rw [hrun pi _ _ hP hC]
      refine ⟨rfl, ?_, by simp [hna], (hcore _).1, fun h => (hcore _).2 (hmid h)⟩
      show List.map some (desiredSet env _ _) = _
      simp only [desiredSet, List.map_append, List.map_cons, List.append_assoc,
        List.cons_append]
      rfl
    | Configuration =>
      have hC : pi.Configurations.map env.ParseReference =
          (na ++ n :: nb ++ n :: nc).map Except.ok := by
        have : pi.Configurations = a ++ r :: b ++ r :: c := hdup
        rw [this, hlist]
      have hP : pi.Providers.map env.ParseReference = other.map Except.ok := hother
      have hno := map_parse_length hP
      refine ⟨other.map (newProvider env) ++ na.map (recordOf env Kind.Configuration),
        nc.map (recordOf env Kind.Configuration), ?_⟩
      rw [hrun pi _ _ hP hC]
      refine ⟨rfl, ?_, by simp [hna, hno], (hcore _).1, fun h => (hcore _).2 (hmid h)⟩
      show List.map some (desiredSet env _ _) = _
      simp only [desiredSet, List.map_append, List.map_cons, List.append_assoc,
        List.cons_append]
      rfl
  · intro pi a1 c1 a2 c2 na1 nc1 na2 nc2 hprov hconf h1 h2 h3 h4
    have hP : pi.Providers.map env.ParseReference = (na1 ++ n :: nc1).map Except.ok := by
      rw [hprov]
      simp [h1, h2, hr]
    have hC : pi.Configurations.map env.ParseReference = (na2 ++ n :: nc2).map Except.ok := by
      rw [hconf]
      simp [h3, h4, hr]
    rw [hrun pi _ _ hP hC]
    refine ⟨rfl, ?_, by simp [sameKey, recordOf]⟩
    show List.map some (desiredSet env _ _) = _
    simp only [desiredSet, List.map_append, List.map_cons, List.append_assoc,
      List.cons_append]
    rfl

theorem Run_duplicate_references_witness :
    (∃ pre post : List PackageRecord,
      ((NewPackageInstaller ["xx:v1", "yy:v1", "xx:v1"] []).Run
          (sampleEnv storeApply) []).exit = Exit.returned none ∧
      ((NewPackageInstaller ["xx:v1", "yy:v1", "xx:v1"] []).Run
          (sampleEnv storeApply) []).applied =
        (pre ++ (PackageRecord.mk Kind.Provider "xx" "xx:v1") ::
          [PackageRecord.mk Kind.Provider "yy" "yy:v1"] ++
          (PackageRecord.mk Kind.Provider "xx" "xx:v1") :: post).map some ∧
      pre.length = 0 ∧
      storePut (putAll [] (pre ++ (PackageRecord.mk Kind.Provider "xx" "xx:v1") ::
          [PackageRecord.mk Kind.Provider "yy" "yy:v1"]))
          (PackageRecord.mk Kind.Provider "xx" "xx:v1") =
        putAll [] (pre ++ (PackageRecord.mk Kind.Provider "xx" "xx:v1") ::
          [PackageRecord.mk Kind.Provider "yy" "yy:v1"])) ∧
    ((NewPackageInstaller ["xx:v1"] ["yy:v1", "xx:v1"]).Run
        (sampleEnv storeApply) []).exit = Exit.returned none ∧
    ((NewPackageInstaller ["xx:v1"] ["yy:v1", "xx:v1"]).Run
        (sampleEnv storeApply) []).applied =
      [some (PackageRecord.mk Kind.Provider "xx" "xx:v1"),
       some (PackageRecord.mk Kind.Configuration "yy" "yy:v1"),
       some (PackageRecord.mk Kind.Configuration "xx" "xx:v1")] ∧
    sameKey (PackageRecord.mk Kind.Provider "xx" "xx:v1")
      (PackageRecord.mk Kind.Configuration "xx" "xx:v1") = false := by
  have h := Run_duplicate_references (sampleEnv storeApply) rfl [] "xx:v1"
    { source := "xx", identifier := "v1" } rfl
  obtain ⟨pre, post, h1, h2, h3, _, h5⟩ :=
    h.1 (NewPackageInstaller ["xx:v1", "yy:v1", "xx:v1"] []) Kind.Provider [] ["yy:v1"] []
      [] [{ source := "yy", identifier := "v1" }] [] [] rfl rfl rfl rfl rfl
  have hx := h.2 (NewPackageInstaller ["xx:v1"] ["yy:v1", "xx:v1"]) [] [] ["yy:v1"] []
    [] [] [{ source := "yy", identifier := "v1" }] [] rfl rfl rfl rfl rfl rfl
  refine ⟨⟨pre, post, h1, h2, h3, ?_⟩, hx.1, hx.2.1, hx.2.2⟩
  have h6 := congrArg Prod.fst (h5 (by decide))
  rw [storeAfter_eq_putAll (sampleEnv storeApply) rfl] at h6
  exact h6

/-- C6, as stated, fails. A reference standing once in `Providers` and once
in `Configurations` yields two records of different kinds, so the two keys
differ; run against the empty store, the second apply is a create and the
store ends with two resources.  And a reference standing twice in one list
with another tag of the same source in between makes the second apply a patch
that changes the package back. -/
theorem Run_duplicate_not_always_noop :
    ((NewPackageInstaller ["aa:v1"] ["aa:v1"]).Run (sampleEnv storeApply) []).applied =
      [some { kind := Kind.Provider, name := "aa", package := "aa:v1" },
       some { kind := Kind.Configuration, name := "aa", package := "aa:v1" }] ∧
    sameKey { kind := Kind.Provider, name := "aa", package := "aa:v1" }
      { kind := Kind.Configuration, name := "aa", package := "aa:v1" } = false ∧
    storeOp (storeAfter (sampleEnv storeApply) []
        [{ kind := Kind.Provider, name := "aa", package := "aa:v1" }])
      { kind := Kind.Configuration, name := "aa", package := "aa:v1" } = StoreOp.create ∧
    ((NewPackageInstaller ["aa:v1"] ["aa:v1"]).Run (sampleEnv storeApply) []).store =
      [{ kind := Kind.Provider, name := "aa", package := "aa:v1" },
       { kind := Kind.Configuration, name := "aa", package := "aa:v1" }] ∧
    ((NewPackageInstaller ["aa:v1", "aa:v2", "aa:v1"] []).Run
        (sampleEnv storeApply) []).applied =
      [some { kind := Kind.Provider, name := "aa", package := "aa:v1" },
       some { kind := Kind.Provider, name := "aa", package := "aa:v2" },
       some { kind := Kind.Provider, name := "aa", package := "aa:v1" }] ∧
    storeAfter (sampleEnv storeApply) []
        [{ kind := Kind.Provider, name := "aa", package := "aa:v1" },
         { kind := Kind.Provider, name := "aa", package := "aa:v2" }] =
      [{ kind := Kind.Provider, name := "aa", package := "aa:v2" }] ∧
    storeAfter (sampleEnv storeApply) []
        [{ kind := Kind.Provider, name := "aa", package := "aa:v1" },
         { kind := Kind.Provider, name := "aa", package := "aa:v2" },
         { kind := Kind.Provider, name := "aa", package := "aa:v1" }] =
      [{ kind := Kind.Provider, name := "aa", package := "aa:v1" }] := by
  refine ⟨by decide, by decide, by decide, by decide, by decide, by decide, by decide⟩

/-! Naming -/

/-- C9. The name `Run` gives a record is a function of the reference alone,
and of its source component only: when the references of two runs have, list
by list and position by position, the same source components, whatever their
tags or digests, the slots of the two slices hold the same keys of kind and
name, and each name is `ToDNSLabel` of the source component. -/
theorem Run_names_from_source_only {σ ε : Type} (env : Env σ ε) (pi1 pi2 : PackageInstaller)
    (ns1 ms1 ns2 ms2 : List Reference)
    (hP1 : pi1.Providers.map env.ParseReference = ns1.map Except.ok)
    (hC1 : pi1.Configurations.map env.ParseReference = ms1.map Except.ok)
    (hP2 : pi2.Providers.map env.ParseReference = ns2.map Except.ok)
    (hC2 : pi2.Configurations.map env.ParseReference = ms2.map Except.ok)
    (hns : ns1.map Reference.source = ns2.map Reference.source)
    (hms : ms1.map Reference.source = ms2.map Reference.source) :
    ∃ st1 st2 : BuildState,
      (pi1.build env).1 = Flow.next st1 ∧ (pi2.build env).1 = Flow.next st2 ∧
      slotKeys st1.pkgs = slotKeys st2.pkgs ∧
      slotKeys st1.pkgs =
        ns1.map (fun n => some (Kind.Provider, env.ToDNSLabel n.source)) ++
        ms1.map (fun n => some (Kind.Configuration, env.ToDNSLabel n.source)) := by
  have key : ∀ ns ms : List Reference,
      slotKeys ((ns.map (newProvider env) ++ ms.map (newConfiguration env)).map some) =
        (ns.map Reference.source).map (fun x => some (Kind.Provider, env.ToDNSLabel x)) ++
        (ms.map Reference.source).map
          (fun x => some (Kind.Configuration, env.ToDNSLabel x)) := by
    intro ns ms
    simp [slotKeys, newProvider, newConfiguration, ParsePackageSourceFromReference,
      Function.comp_def]
  refine ⟨_, _, by rw [build_ok env pi1 ns1 ms1 hP1 hC1],
    by rw [build_ok env pi2 ns2 ms2 hP2 hC2], ?_, ?_⟩
  · show slotKeys ((ns1.map (newProvider env) ++ ms1.map (newConfiguration env)).map some) =
      slotKeys ((ns2.map (newProvider env) ++ ms2.map (newConfiguration env)).map some)
    rw [key, key, hns, hms]
  · show slotKeys ((ns1.map (newProvider env) ++ ms1.map (newConfiguration env)).map some) = _
    rw [key]
    simp [Function.comp_def]

theorem Run_names_from_source_only_witness :
    ∃ st1 st2 : BuildState,
      ((NewPackageInstaller ["reg.io/org/p:v1"] ["reg.io/org/c:v1"]).build
        (sampleEnv storeApply)).1 = Flow.next st1 ∧
      ((NewPackageInstaller ["reg.io/org/p:v2"] ["reg.io/org/c:latest"]).build
        (sampleEnv storeApply)).1 = Flow.next st2 ∧
      slotKeys st1.pkgs = slotKeys st2.pkgs ∧
      slotKeys st1.pkgs =
        [some (Kind.Provider, "reg.io/org/p"), some (Kind.Configuration, "reg.io/org/c")] :=
  Run_names_from_source_only (sampleEnv storeApply)
    (NewPackageInstaller ["reg.io/org/p:v1"] ["reg.io/org/c:v1"])
    (NewPackageInstaller ["reg.io/org/p:v2"] ["reg.io/org/c:latest"])
    [{ source := "reg.io/org/p", identifier := "v1" }]
    [{ source := "reg.io/org/c", identifier := "v1" }]
    [{ source := "reg.io/org/p", identifier := "v2" }]
    [{ source := "reg.io/org/c", identifier := "latest" }]
    rfl rfl rfl rfl rfl rfl

end Initializer
